import Mathlib

/-!
Shallow embedding of `src/job_scraper.py` (class `JobScraper`): configuration
model, enabled-site selection, keyword matchers, the two description filters,
the aggregation/dedup step of `scrape_all`, the save-decision logic of `run`,
and the serialization dispatch of `save_results`.

Pandas DataFrames are modelled as ordered lists of `Row`; a nullable
`description` cell is `Option String` (`none` = NaN).  The external
`jobspy.scrape_jobs` collaborator is an opaque function parameter.  Wall-clock
timestamps (`scraped_at`, timestamped file names) are left out of the model;
paths are passed explicitly.
-/

namespace JobScraper

/-- One job posting row.  Columns not touched by the logic under proof
(`location`, `date_posted`, `job_type`, `scraped_at`) are omitted;
`description` is nullable exactly like the pandas column. -/
structure Row where
  site : String := ""
  title : String := ""
  company : String := ""
  description : Option String := none
  job_url : String := ""
  search_country : String := ""
  search_role : String := ""
  visa_sponsorship_mentioned : Bool := false
  note : Option String := none
deriving DecidableEq, Repr

/-- `DEFAULT_CONFIG['job_sites']`. -/
structure SitesConfig where
  priority : List String := ["indeed", "glassdoor"]
  secondary : List String := ["linkedin", "google", "zip_recruiter"]
  disabled : List String := []
deriving DecidableEq, Repr

/-- `DEFAULT_CONFIG['filters']`. -/
structure FiltersConfig where
  visa_sponsorship_filter : Bool := true
  exclusion_filter : Bool := true
  case_sensitive : Bool := false
deriving DecidableEq, Repr

/-- The scraper configuration; the field defaults are `DEFAULT_CONFIG`. -/
structure Config where
  job_roles : List String := ["DevOps Engineer", "Site Reliability Engineer"]
  countries : List String := ["germany", "netherlands", "sweden", "spain", "belgium", "austria"]
  job_sites : SitesConfig := {}
  visa_keywords : List String :=
    ["visa sponsorship", "visa", "visa support", "relocation package",
     "relocation assistance", "work permit", "sponsorship available", "relocation"]
  exclusion_keywords : List String :=
    ["national of an EU member state", "EU member state national", "EU citizen",
     "European Union citizen", "EU citizenship required", "must be an EU national",
     "EU passport required", "citizenship of an EU country", "only EU nationals",
     "restricted to EU citizens", "EU/EEA nationals only", "EEA nationals only",
     "Swiss nationals only"]
  output_format : String := "csv"
  filters : FiltersConfig := {}
deriving DecidableEq, Repr

/-- `JobScraper.get_enabled_sites`: `priority + secondary` filtered by the
disabled set. -/
def get_enabled_sites (cfg : Config) : List String :=
  (cfg.job_sites.priority ++ cfg.job_sites.secondary).filter
    (fun site => !(cfg.job_sites.disabled.contains site))

/-- ASCII lower-casing of one character (the effect of `re.IGNORECASE` on the
ASCII texts handled here). -/
def lowerChar (c : Char) : Char :=
  if 65 ≤ c.toNat && c.toNat ≤ 90 then Char.ofNat (c.toNat + 32) else c

/-- A string as a case-folded character list. -/
def lowerStr (s : String) : List Char := s.toList.map lowerChar

/-- The character-list view of a keyword or text under the configured case
sensitivity (`re.IGNORECASE` when `case_sensitive` is false). -/
def procText (caseSensitive : Bool) (s : String) : List Char :=
  if caseSensitive then s.toList else lowerStr s

/-- `re.search` for an alternation of literal branches: scan every start
position, at each try every branch as a prefix.  Because every keyword is
passed through `re.escape`, each branch matches exactly its own literal
text; `compileKeywords` below always produces at least one branch, exactly
like `re.compile('|'.join(escaped))`. -/
def regexSearch (alts : List (List Char)) : List Char → Bool
  | [] => alts.any (fun a => a.isEmpty)
  | c :: rest => alts.any (fun a => a.isPrefixOf (c :: rest)) || regexSearch alts rest

/-- `compile_visa_keywords_pattern` / `compile_exclusion_keywords_pattern`:
`'|'.join(escaped)` as the list of the pattern's literal branches
(case-folded unless `case_sensitive`).  Joining one or more escaped keywords
yields the alternation of their literal texts; joining zero keywords yields
`''`, and `re.compile('')` is the single empty-literal branch — it matches
at every position of every text. -/
def compileKeywords (keywords : List String) (caseSensitive : Bool) : List (List Char) :=
  if keywords.isEmpty then [[]]
  else keywords.map (procText caseSensitive)

/-- `bool(pattern.search(text))`: the compiled keyword pattern applied to a
text. -/
def matchesAny (keywords : List String) (caseSensitive : Bool) (text : String) : Bool :=
  regexSearch (compileKeywords keywords caseSensitive) (procText caseSensitive text)

/-- `jobs_df['description'].fillna('')` on one row. -/
def fillDesc (r : Row) : Row := { r with description := some (r.description.getD "") }

/-- The filter predicate applied to a row's (filled) description. -/
def rowMatches (keywords : List String) (caseSensitive : Bool) (r : Row) : Bool :=
  matchesAny keywords caseSensitive (r.description.getD "")

/-- `filtered_df['visa_sponsorship_mentioned'] = True` on one row. -/
def setFlag (r : Row) : Row := { r with visa_sponsorship_mentioned := true }

/-- `filter_by_visa_sponsorship(jobs_df)`.  Result: (the input frame as it is
after the call — its `description` column is `fillna`-mutated in the filtering
branch — , the returned frame). -/
def filter_by_visa_sponsorship (cfg : Config) (jobs : List Row) : List Row × List Row :=
  if cfg.filters.visa_sponsorship_filter = false then (jobs, jobs)
  else if jobs.isEmpty then (jobs, jobs)
  else
    let filled := jobs.map fillDesc
    let kept := filled.filter (rowMatches cfg.visa_keywords cfg.filters.case_sensitive)
    (filled, kept.map setFlag)

/-- `filter_by_exclusion(jobs_df)`.  Result: (the input frame after the call,
the returned frame, the printed `excluded_count` when the filtering branch
runs). -/
def filter_by_exclusion (cfg : Config) (jobs : List Row) :
    List Row × List Row × Option Nat :=
  if cfg.filters.exclusion_filter = false then (jobs, jobs, none)
  else if jobs.isEmpty then (jobs, jobs, none)
  else if cfg.exclusion_keywords.isEmpty then (jobs, jobs, none)
  else
    let filled := jobs.map fillDesc
    let kept := filled.filter
      (fun r => !(rowMatches cfg.exclusion_keywords cfg.filters.case_sensitive r))
    (filled, kept, some (jobs.length - kept.length))

/-- The scan behind `drop_duplicates(subset=['job_url'], keep='first')`:
`seen` is the set of `job_url` values of earlier rows; a row whose URL was
already seen is dropped. -/
def dedupGo (seen : List String) : List Row → List Row
  | [] => []
  | r :: rest =>
    if seen.contains r.job_url then dedupGo seen rest
    else r :: dedupGo (r.job_url :: seen) rest

/-- `combined_df.drop_duplicates(subset=['job_url'], keep='first')`: keep each
row whose `job_url` has not appeared in an earlier row. -/
def dedupByUrl (rows : List Row) : List Row := dedupGo [] rows

/-- The metadata stamp of `scrape_jobs_for_country`:
`jobs_df['search_country'] = country; jobs_df['search_role'] = role`. -/
def stamp (country role : String) (r : Row) : Row :=
  { r with search_country := country, search_role := role }

/-- The pre-dedup concatenation built by `scrape_all`'s country-major
`for country: for role:` loop, with each per-call table stamped; `scrape` is
the external `jobspy.scrape_jobs` collaborator (a failed pair contributes the
empty table). -/
def rawRows (countries roles : List String) (scrape : String → String → List Row) : List Row :=
  countries.flatMap (fun country =>
    roles.flatMap (fun role => (scrape country role).map (stamp country role)))

/-- `scrape_all`: concatenate all per-pair tables, then drop duplicate
`job_url`s keeping the first occurrence. -/
def scrape_all (countries roles : List String) (scrape : String → String → List Row) : List Row :=
  dedupByUrl (rawRows countries roles scrape)

/-- The note text set on the fallback save path of `run`. -/
def noteNoVisa : String := "No visa keywords found - manual review needed"

/-- The note text set on the `_all_jobs` save path of `run`. -/
def noteAllJobs : String := "Unfiltered - may not have visa keywords"

/-- `jobs_df['note'] = n` on one row. -/
def setNote (n : String) (r : Row) : Row := { r with note := some n }

/-- `save_results`' `jobs_df.drop(columns=['description'])` on one row. -/
def dropDescription (r : Row) : Row := { r with description := none }

/-- The save decisions of `run` after the scrape phase, as the list of
(filename suffix, frame handed to `save_results`) pairs.  `jobs0` is the
deduplicated frame `scrape_all` returned.  When the visa filter is disabled,
`filter_by_visa_sponsorship` returns its argument itself, so the exclusion
pass's `fillna` mutation lands on `jobs_df` too; otherwise `jobs_df` is what
the visa pass left behind. -/
def runSaves (cfg : Config) (jobs0 : List Row) : List (String × List Row) :=
  if jobs0.isEmpty then []
  else
    let v := filter_by_visa_sponsorship cfg jobs0
    let e := filter_by_exclusion cfg v.2
    let filtered := e.2.1
    let jobsF := if cfg.filters.visa_sponsorship_filter = false then e.1 else v.1
    if filtered.isEmpty && !jobsF.isEmpty then
      [("_unfiltered", jobsF.map (setNote noteNoVisa))]
    else if !filtered.isEmpty then
      if filtered.length < jobsF.length then
        [("", filtered), ("_all_jobs", jobsF.map (setNote noteAllJobs))]
      else [("", filtered)]
    else []

/-- The serialization formats `save_results` can write. -/
inductive FileFmt where
  | csv
  | json
  | excel
deriving DecidableEq, Repr

/-- One file written by `save_results`. -/
structure SaveFile where
  path : List Char
  fmt : FileFmt
  rows : List Row
deriving DecidableEq, Repr

/-- Python `str.replace('.csv', rep)` — `'.csv'` is the only pattern the
source ever replaces: every (leftmost, non-overlapping) occurrence of
`'.csv'` becomes `rep`. -/
def replaceCsv (rep : List Char) : List Char → List Char
  | '.' :: 'c' :: 's' :: 'v' :: rest => rep ++ replaceCsv rep rest
  | c :: rest => c :: replaceCsv rep rest
  | [] => []

/-- `pat` occurs as a substring (`pat in s`). -/
def occursIn (pat s : List Char) : Bool := regexSearch [pat] s

/-- The scan behind `pandas.Series.unique`. -/
def uniqueGo (seen : List String) : List String → List String
  | [] => []
  | s :: rest =>
    if seen.contains s then uniqueGo seen rest
    else s :: uniqueGo (s :: seen) rest

/-- `pandas.Series.unique`: distinct values in order of first appearance. -/
def uniqueStrings (l : List String) : List String := uniqueGo [] l

/-- Python `str.lower()` (ASCII), for the format string. -/
def strLower (s : String) : String := ⟨s.data.map lowerChar⟩

/-- The character list of `".csv"`. -/
def csvPat : List Char := ['.', 'c', 's', 'v']

/-- The per-site suffix `'_<site>.csv'`. -/
def siteSuffix (site : String) : List Char := '_' :: site.toList ++ csvPat

/-- The format dispatch of `save_results`: the primary file's path and
format from `self.config['output']['format'].lower()`.  `json`/`excel`
rewrite the `'.csv'` in the path; an unknown format falls back to CSV (after
a warning) at the unmodified path. -/
def primaryPathFmt (outputFormat : String) (path : List Char) : List Char × FileFmt :=
  let f := strLower outputFormat
  if f = "csv" then (path, FileFmt.csv)
  else if f = "json" then (replaceCsv ['.', 'j', 's', 'o', 'n'] path, FileFmt.json)
  else if f = "excel" then (replaceCsv ['.', 'x', 'l', 's', 'x'] path, FileFmt.excel)
  else (path, FileFmt.csv)

/-- `save_results(jobs_df, output_path)`: the list of files written, in
order.  An empty frame writes nothing; the per-site split (when more than one
distinct `site` value is present) always writes CSV, at
`str(output_path).replace('.csv', '_<site>.csv')` computed from the primary
path as reassigned by the format dispatch.  The `description` drop and the
column reordering do not change which rows go to which file and are applied
at the row level by `dropDescription` where a claim needs them. -/
def save_results (cfg : Config) (jobs : List Row) (outputPath : List Char) : List SaveFile :=
  if jobs.isEmpty then []
  else
    let pf := primaryPathFmt cfg.output_format outputPath
    let sites := uniqueStrings (jobs.map (fun r => r.site))
    let primary : SaveFile := ⟨pf.1, pf.2, jobs⟩
    if 1 < sites.length then
      primary :: sites.map (fun s =>
        ⟨replaceCsv (siteSuffix s) pf.1, FileFmt.csv, jobs.filter (fun r => r.site == s)⟩)
    else [primary]

/-!
The configuration file is an arbitrarily nested YAML mapping, modelled as a
mutually inductive value type: a `Value` is a scalar (opaque, numbered) or a
nested mapping; `Fields` is a mapping as an insertion-ordered key/value
sequence, exactly the shape `_deep_update` recurses over.  Python `dict`
semantics: assigning to a present key keeps its position, assigning to an
absent key appends.
-/

mutual
inductive Value where
  | atom : Nat → Value
  | dict : Fields → Value

inductive Fields where
  | nil : Fields
  | fcons : String → Value → Fields → Fields
end

/-- `key in base_dict` / `base_dict[key]`: first (only, for a real dict)
binding of a key. -/
def lookupF : Fields → String → Option Value
  | .nil, _ => none
  | .fcons k v rest, key => if k = key then some v else lookupF rest key

/-- `base_dict[key] = val`: overwrite in place when the key is present,
append when it is absent. -/
def setKeyF : Fields → String → Value → Fields
  | .nil, key, val => .fcons key val .nil
  | .fcons k v rest, key, val =>
    if k = key then .fcons k val rest else .fcons k v (setKeyF rest key val)

/-- The keys of a mapping, in order. -/
def keysF : Fields → List String
  | .nil => []
  | .fcons k _ rest => k :: keysF rest

mutual
/-- The update `_deep_update` performs at one key: when the present base
value and the update value are both dicts it merges them recursively,
otherwise the update value replaces wholesale (also when the key is new). -/
def deepUpdateVal : Value → Value → Value
  | .dict bd, .dict ud => .dict (deepUpdateList bd ud)
  | _, u => u

/-- `_deep_update(base_dict, update_dict)`: fold the update's bindings, in
order, into the base. -/
def deepUpdateList : Fields → Fields → Fields
  | base, .nil => base
  | base, .fcons k v rest =>
    deepUpdateList
      (setKeyF base k (match lookupF base k with
        | some bv => deepUpdateVal bv v
        | none => v)) rest
end

mutual
/-- A value all of whose nested mappings have pairwise distinct keys: every
value a real YAML/Python configuration can denote satisfies this. -/
def wfV : Value → Bool
  | .atom _ => true
  | .dict d => wfF d

/-- A mapping with pairwise distinct keys, recursively. -/
def wfF : Fields → Bool
  | .nil => true
  | .fcons k v rest => !(keysF rest).contains k && wfV v && wfF rest
end

/-! ## Helper lemmas -/

theorem regexSearch_iff (alts : List (List Char)) :
    ∀ hay : List Char, regexSearch alts hay = true ↔ ∃ a ∈ alts, a <:+: hay := by
  intro hay
  induction hay with
  | nil =>
    simp [regexSearch, List.any_eq_true, List.isEmpty_iff, List.infix_nil]
  | cons c rest ih =>
    rw [regexSearch]
    simp only [Bool.or_eq_true, List.any_eq_true, ih]
    constructor
    · rintro (⟨a, ha, hp⟩ | ⟨a, ha, hi⟩)
      · exact ⟨a, ha, List.infix_cons_iff.2 (Or.inl (List.isPrefixOf_iff_prefix.1 hp))⟩
      · exact ⟨a, ha, List.infix_cons_iff.2 (Or.inr hi)⟩
    · rintro ⟨a, ha, hi⟩
      rcases List.infix_cons_iff.1 hi with hp | hi2
      · exact Or.inl ⟨a, ha, List.isPrefixOf_iff_prefix.2 hp⟩
      · exact Or.inr ⟨a, ha, hi2⟩

theorem matchesAny_iff (keywords : List String) (caseSensitive : Bool) (text : String)
    (hne : keywords ≠ []) :
    matchesAny keywords caseSensitive text = true ↔
      ∃ kw ∈ keywords, procText caseSensitive kw <:+: procText caseSensitive text := by
  have hemp : keywords.isEmpty = false := by
    cases hx : keywords with
    | nil => exact absurd hx hne
    | cons a t => rfl
  rw [matchesAny, regexSearch_iff, compileKeywords, hemp]
  simp only [Bool.false_eq_true, if_false]
  constructor
  · rintro ⟨a, ha, hi⟩
    obtain ⟨kw, hkw, rfl⟩ := List.mem_map.1 ha
    exact ⟨kw, hkw, hi⟩
  · rintro ⟨kw, hkw, hi⟩
    exact ⟨procText caseSensitive kw, List.mem_map_of_mem _ hkw, hi⟩

theorem matchesAny_nil (caseSensitive : Bool) (text : String) :
    matchesAny [] caseSensitive text = true := by
  rw [matchesAny, regexSearch_iff]
  exact ⟨[], by simp [compileKeywords], List.nil_infix⟩

theorem mem_of_mem_dedupGo (l : List Row) :
    ∀ (seen : List String) (x : Row), x ∈ dedupGo seen l → x ∈ l := by
  induction l with
  | nil => intro seen x h; simp [dedupGo] at h
  | cons r rest ih =>
    intro seen x h
    by_cases hc : seen.contains r.job_url = true
    · rw [dedupGo, if_pos hc] at h
      exact List.mem_cons_of_mem r (ih seen x h)
    · rw [dedupGo, if_neg hc] at h
      rcases List.mem_cons.1 h with rfl | h2
      · exact List.mem_cons_self _ _
      · exact List.mem_cons_of_mem r (ih _ x h2)

theorem dedupGo_not_seen (l : List Row) :
    ∀ (seen : List String) (x : Row), x ∈ dedupGo seen l →
      seen.contains x.job_url = false := by
  induction l with
  | nil => intro seen x h; simp [dedupGo] at h
  | cons r rest ih =>
    intro seen x h
    by_cases hc : seen.contains r.job_url = true
    · rw [dedupGo, if_pos hc] at h
      exact ih seen x h
    · rw [dedupGo, if_neg hc] at h
      rcases List.mem_cons.1 h with rfl | h2
      · exact Bool.not_eq_true _ ▸ hc
      · have := ih _ x h2
        rw [List.contains_cons] at this
        exact (Bool.or_eq_false_iff.1 this).2

theorem dedupGo_pairwise (l : List Row) :
    ∀ seen : List String,
      (dedupGo seen l).Pairwise (fun a b => a.job_url ≠ b.job_url) := by
  induction l with
  | nil => intro seen; simp [dedupGo]
  | cons r rest ih =>
    intro seen
    by_cases hc : seen.contains r.job_url = true
    · rw [dedupGo, if_pos hc]; exact ih seen
    · rw [dedupGo, if_neg hc]
      refine List.pairwise_cons.2 ⟨?_, ih _⟩
      intro b hb
      have h := dedupGo_not_seen rest _ b hb
      rw [List.contains_cons, Bool.or_eq_false_iff] at h
      have : ¬ (b.job_url = r.job_url) := by simpa using h.1
      exact fun he => this he.symm

theorem dedupGo_find? (l : List Row) :
    ∀ (seen : List String) (u : String), seen.contains u = false →
      (dedupGo seen l).find? (fun r => r.job_url == u) =
        l.find? (fun r => r.job_url == u) := by
  induction l with
  | nil => intro seen u _; simp [dedupGo]
  | cons r rest ih =>
    intro seen u hu
    by_cases hru : r.job_url = u
    · subst hru
      have hc : seen.contains r.job_url = false := hu
      rw [dedupGo, if_neg (by simp only [hc]; exact Bool.false_ne_true)]
      simp [List.find?_cons]
    · have hp : (r.job_url == u) = false := by simpa using hru
      by_cases hc : seen.contains r.job_url = true
      · rw [dedupGo, if_pos hc, List.find?_cons, hp]
        exact ih seen u hu
      · rw [dedupGo, if_neg hc, List.find?_cons, hp, List.find?_cons, hp]
        refine ih _ u ?_
        rw [List.contains_cons, Bool.or_eq_false_iff]
        exact ⟨by simpa using fun he : u = r.job_url => hru he.symm, hu⟩

theorem find?_eq_some_of_countP_one {α : Type} (p : α → Bool) :
    ∀ (l : List α) (r : α), r ∈ l → p r = true → l.countP p = 1 →
      l.find? p = some r := by
  intro l
  induction l with
  | nil => intro r hr; cases hr
  | cons a t ih =>
    intro r hr hp hc
    rcases List.mem_cons.1 hr with rfl | hrt
    · rw [List.find?_cons, hp]
    · by_cases hpa : p a = true
      · exfalso
        rw [List.countP_cons, if_pos hpa] at hc
        have h1 : t.countP p = 0 := by omega
        have h2 : 0 < t.countP p := List.countP_pos_iff.2 ⟨r, hrt, hp⟩
        omega
      · have hpa' : p a = false := by simpa using hpa
        rw [List.find?_cons, hpa']
        rw [List.countP_cons, if_neg hpa, Nat.add_zero] at hc
        exact ih r hrt hp hc

theorem procText_eq_nil_iff (cs : Bool) (s : String) : procText cs s = [] ↔ s = "" := by
  have h : s.data = [] ↔ s = "" := by
    rw [String.ext_iff]
  cases cs <;> simp [procText, lowerStr, List.map_eq_nil_iff, String.toList, h]

theorem matchesAny_empty_text (kws : List String) (cs : Bool)
    (hne : kws ≠ []) (h : ∀ kw ∈ kws, kw ≠ "") : matchesAny kws cs "" = false := by
  have hemp : kws.isEmpty = false := by
    cases hx : kws with
    | nil => exact absurd hx hne
    | cons a t => rfl
  have hnil : procText cs "" = [] := by cases cs <;> rfl
  rw [matchesAny, hnil]
  show (compileKeywords kws cs).any (fun a => a.isEmpty) = false
  rw [compileKeywords, hemp]
  simp only [Bool.false_eq_true, if_false]
  rw [List.any_eq_false]
  intro a ha
  obtain ⟨kw, hkw, rfl⟩ := List.mem_map.1 ha
  simp only [List.isEmpty_iff, procText_eq_nil_iff]
  exact h kw hkw

theorem filter_by_exclusion_nil (cfg : Config) :
    filter_by_exclusion cfg ([] : List Row) = ([], [], none) := by
  rw [filter_by_exclusion]
  simp

theorem filter_by_exclusion_count (cfg : Config) (jobs : List Row) :
    ∀ n, (filter_by_exclusion cfg jobs).2.2 = some n →
      n = jobs.length - (filter_by_exclusion cfg jobs).2.1.length := by
  intro n hn
  by_cases h1 : cfg.filters.exclusion_filter = false
  · simp [filter_by_exclusion, h1] at hn
  · by_cases h2 : jobs.isEmpty
    · simp [filter_by_exclusion, h1, h2] at hn
    · by_cases h3 : cfg.exclusion_keywords.isEmpty
      · simp [filter_by_exclusion, h1, h2, h3] at hn
      · have h1' : cfg.filters.exclusion_filter = true := by
          cases hx : cfg.filters.exclusion_filter
          · exact absurd hx h1
          · rfl
        have h2' : jobs.isEmpty = false := by
          cases hx : jobs.isEmpty
          · rfl
          · exact absurd hx h2
        have h3' : cfg.exclusion_keywords.isEmpty = false := by
          cases hx : cfg.exclusion_keywords.isEmpty
          · rfl
          · exact absurd hx h3
        simp [filter_by_exclusion, h1', h2', h3'] at hn ⊢
        omega

theorem replaceCsv_of_not_occurs (rep : List Char) :
    ∀ s : List Char, occursIn csvPat s = false → replaceCsv rep s = s := by
  intro s
  induction s using replaceCsv.induct rep with
  | case1 rest ih =>
    intro h
    exfalso
    simp [occursIn, regexSearch, csvPat, List.isPrefixOf] at h
  | case2 c rest hne ih =>
    intro h
    have h2 : occursIn csvPat rest = false := by
      rw [occursIn, regexSearch] at h
      exact (Bool.or_eq_false_iff.1 h).2
    rw [replaceCsv, ih h2]
    exact hne
  | case3 =>
    intro _
    rfl

theorem lookupF_setKeyF_eq : ∀ (b : Fields) (k : String) (v : Value),
    lookupF (setKeyF b k v) k = some v
  | .nil, k, v => by simp [setKeyF, lookupF]
  | .fcons k' v' rest, k, v => by
    by_cases h : k' = k
    · rw [setKeyF, if_pos h, lookupF, if_pos h]
    · rw [setKeyF, if_neg h, lookupF, if_neg h]
      exact lookupF_setKeyF_eq rest k v

theorem lookupF_setKeyF_ne : ∀ (b : Fields) (k : String) (v : Value) (k2 : String),
    k2 ≠ k → lookupF (setKeyF b k v) k2 = lookupF b k2
  | .nil, k, v, k2, h => by
    simp [setKeyF, lookupF, Ne.symm h]
  | .fcons k' v' rest, k, v, k2, h => by
    by_cases hk : k' = k
    · subst hk
      rw [setKeyF, if_pos rfl, lookupF, lookupF,
        if_neg (fun he => h he.symm), if_neg (fun he => h he.symm)]
    · rw [setKeyF, if_neg hk, lookupF, lookupF]
      by_cases h2 : k' = k2
      · rw [if_pos h2, if_pos h2]
      · rw [if_neg h2, if_neg h2]
        exact lookupF_setKeyF_ne rest k v k2 h

theorem setKeyF_self : ∀ (b : Fields) (k : String) (v : Value),
    lookupF b k = some v → setKeyF b k v = b
  | .nil, k, v, h => by simp [lookupF] at h
  | .fcons k' v' rest, k, v, h => by
    rw [lookupF] at h
    by_cases hk : k' = k
    · rw [if_pos hk] at h
      injection h with hv
      rw [setKeyF, if_pos hk, ← hv]
    · rw [if_neg hk] at h
      rw [setKeyF, if_neg hk, setKeyF_self rest k v h]

theorem mem_keysF_of_lookupF : ∀ (u : Fields) (k : String) (v : Value),
    lookupF u k = some v → k ∈ keysF u
  | .nil, k, v, h => by simp [lookupF] at h
  | .fcons k' v' rest, k, v, h => by
    rw [lookupF] at h
    rw [keysF]
    by_cases hk : k' = k
    · exact hk ▸ List.mem_cons_self _ _
    · rw [if_neg hk] at h
      exact List.mem_cons_of_mem _ (mem_keysF_of_lookupF rest k v h)

theorem lookupF_deepUpdateList_notin : ∀ (u b : Fields) (k : String),
    k ∉ keysF u → lookupF (deepUpdateList b u) k = lookupF b k
  | .nil, b, k, _ => rfl
  | .fcons k' v rest, b, k, h => by
    rw [keysF] at h
    simp only [List.mem_cons, not_or] at h
    rw [deepUpdateList]
    rw [lookupF_deepUpdateList_notin rest _ k h.2]
    exact lookupF_setKeyF_ne b k' _ k h.1

theorem wfF_parts (k : String) (v : Value) (rest : Fields)
    (h : wfF (.fcons k v rest) = true) :
    k ∉ keysF rest ∧ wfV v = true ∧ wfF rest = true := by
  rw [wfF] at h
  simp only [Bool.and_eq_true, Bool.not_eq_true'] at h
  refine ⟨?_, h.1.2, h.2⟩
  intro hmem
  have := h.1.1
  simp [hmem] at this

mutual

theorem valSelfIdem : ∀ v : Value, wfV v = true →
    deepUpdateVal v v = v ∧
      ∀ x : Value, deepUpdateVal (deepUpdateVal x v) v = deepUpdateVal x v
  | .atom n, _ => by
    constructor
    · rfl
    · intro x
      cases x <;> rfl
  | .dict d, h => by
    have hw : wfF d = true := by rw [wfV] at h; exact h
    have hd := fieldsSelfIdem d hw
    have hself : deepUpdateList d d = d := hd.1 d (fun _ _ hkv => hkv)
    constructor
    · show Value.dict (deepUpdateList d d) = Value.dict d
      rw [hself]
    · intro x
      cases x with
      | atom m =>
        show Value.dict (deepUpdateList d d) = Value.dict d
        rw [hself]
      | dict xd =>
        show Value.dict (deepUpdateList (deepUpdateList xd d) d) =
          Value.dict (deepUpdateList xd d)
        rw [hd.2 xd]

theorem fieldsSelfIdem : ∀ u : Fields, wfF u = true →
    (∀ b : Fields, (∀ k v, lookupF u k = some v → lookupF b k = some v) →
        deepUpdateList b u = b) ∧
      ∀ b : Fields, deepUpdateList (deepUpdateList b u) u = deepUpdateList b u
  | .nil, _ => ⟨fun _ _ => rfl, fun _ => rfl⟩
  | .fcons k v rest, h => by
    obtain ⟨hknot, hwv, hwrest⟩ := wfF_parts k v rest h
    have hselfv := valSelfIdem v hwv
    have ihrest := fieldsSelfIdem rest hwrest
    constructor
    · intro b hb
      have hlk : lookupF b k = some v := hb k v (by rw [lookupF, if_pos rfl])
      rw [deepUpdateList]
      simp only [hlk]
      rw [hselfv.1, setKeyF_self b k v hlk]
      apply ihrest.1
      intro k2 v2 h2
      have hk2 : k2 ≠ k := fun he => hknot (he ▸ mem_keysF_of_lookupF rest k2 v2 h2)
      apply hb
      rw [lookupF, if_neg (fun he => hk2 he.symm)]
      exact h2
    · intro b
      cases hc : lookupF b k with
      | some bv =>
        simp only [deepUpdateList, hc]
        have hl1 : lookupF (deepUpdateList (setKeyF b k (deepUpdateVal bv v)) rest) k =
            some (deepUpdateVal bv v) := by
          rw [lookupF_deepUpdateList_notin rest _ k hknot, lookupF_setKeyF_eq]
        simp only [hl1]
        rw [hselfv.2 bv, setKeyF_self _ k _ hl1]
        exact ihrest.2 _
      | none =>
        simp only [deepUpdateList, hc]
        have hl1 : lookupF (deepUpdateList (setKeyF b k v) rest) k = some v := by
          rw [lookupF_deepUpdateList_notin rest _ k hknot, lookupF_setKeyF_eq]
        simp only [hl1]
        rw [hselfv.1, setKeyF_self _ k _ hl1]
        exact ihrest.2 _

end

/-! ## Fixtures for witnesses and counterexamples -/

/-- A configuration whose priority and secondary lists share a site. -/
def cfgDupSite : Config :=
  { job_sites := { priority := ["indeed"], secondary := ["indeed"], disabled := [] } }

/-- A configuration with both filters disabled. -/
def cfgBothOff : Config :=
  { filters := { visa_sponsorship_filter := false, exclusion_filter := false,
                 case_sensitive := false } }

/-- A sample posting row. -/
def rowW : Row :=
  { site := "indeed", title := "DevOps Engineer", job_url := "u1",
    description := some "We offer visa sponsorship" }

/-- A configuration whose inclusion and exclusion keyword lists both consist
of the single empty-string keyword (filters at their enabled defaults). -/
def cfgEmptyKw : Config := { visa_keywords := [""], exclusion_keywords := [""] }

/-- A row whose description is missing (NaN). -/
def rowNoDesc : Row := { job_url := "u-nodesc", description := none }

/-- A base configuration fragment `{output: {format: 0}, roles: 1}`. -/
def baseW : Fields :=
  .fcons "output" (.dict (.fcons "format" (.atom 0) .nil)) (.fcons "roles" (.atom 1) .nil)

/-- An overlay `{output: {format: 2, directory: 3}}`. -/
def updW : Fields :=
  .fcons "output" (.dict (.fcons "format" (.atom 2) (.fcons "directory" (.atom 3) .nil))) .nil

/-- Two rows that both mention visa sponsorship; the second also carries EU
citizenship-restriction language. -/
def rowsEU : List Row :=
  [{ site := "indeed", title := "A", job_url := "e1",
     description := some "visa sponsorship available" },
   { site := "indeed", title := "B", job_url := "e2",
     description := some "visa sponsorship but only EU nationals may apply" }]

/-- Two rows, on different sites, that contain no default visa keyword. -/
def rowsNoKw : List Row :=
  [{ site := "indeed", title := "Cook", job_url := "n1", description := some "on-site only" },
   { site := "glassdoor", title := "Clerk", job_url := "n2", description := none }]

/-! ## Claims -/

/-- C1 counterexample: with `priority = ["indeed"]` and
`secondary = ["indeed"]` (and nothing disabled), `get_enabled_sites` returns
`["indeed", "indeed"]` — the claim's "no duplicates (even when a site appears
in both the priority and the secondary list)" is false on the code. -/
theorem get_enabled_sites_dup_counterexample :
    get_enabled_sites cfgDupSite = ["indeed", "indeed"] ∧
      ¬ (get_enabled_sites cfgDupSite).Nodup := by
  constructor
  · rfl
  · decide

/-- C1 (amended): `get_enabled_sites` returns the priority sites followed by
the secondary sites with every disabled site removed, preserving
priority-then-secondary order and containing no disabled member; duplicates
are NOT removed — a site not in the disabled list occurs exactly as often as
it occurs in `priority ++ secondary`. -/
theorem get_enabled_sites_spec (cfg : Config) :
    (∀ s ∈ get_enabled_sites cfg, s ∉ cfg.job_sites.disabled) ∧
    get_enabled_sites cfg =
      cfg.job_sites.priority.filter (fun s => !(cfg.job_sites.disabled.contains s)) ++
        cfg.job_sites.secondary.filter (fun s => !(cfg.job_sites.disabled.contains s)) ∧
    ∀ s, s ∉ cfg.job_sites.disabled →
      (get_enabled_sites cfg).count s =
        (cfg.job_sites.priority ++ cfg.job_sites.secondary).count s := by
  refine ⟨?_, ?_, ?_⟩
  · intro s hs
    have h := (List.mem_filter.1 hs).2
    simp only [Bool.not_eq_true'] at h
    intro hmem
    simp [hmem] at h
  · exact List.filter_append _ _
  · intro s hs
    exact List.count_filter (by simpa using hs)

/-- C1 witness: at the default configuration, `"linkedin"` is not disabled
and is counted once, as in `priority ++ secondary`. -/
theorem get_enabled_sites_spec_witness :
    (get_enabled_sites ({} : Config)).count "linkedin" =
      (({} : Config).job_sites.priority ++ ({} : Config).job_sites.secondary).count "linkedin" :=
  (get_enabled_sites_spec {}).2.2 "linkedin" (by decide)

/-- C2: `_deep_update` is idempotent: for every base mapping and every
overlay (any mapping a configuration file can denote, i.e. with distinct
keys at every nesting level), applying the deep merge with the same overlay
twice yields the same configuration as applying it once.  The merge itself —
dict-valued keys merging key-by-key, non-dict values replacing wholesale —
is the definition of `deepUpdateList`/`deepUpdateVal`. -/
theorem deep_update_idem (base upd : Fields) (h : wfF upd = true) :
    deepUpdateList (deepUpdateList base upd) upd = deepUpdateList base upd :=
  (fieldsSelfIdem upd h).2 base

/-- C2 witness: a concrete base `{output: {format: 0}, roles: 1}` and
overlay `{output: {format: 2, directory: 3}}`. -/
theorem deep_update_idem_witness :
    wfF updW = true ∧
      deepUpdateList (deepUpdateList baseW updW) updW = deepUpdateList baseW updW :=
  ⟨rfl, deep_update_idem baseW updW rfl⟩

/-- C3: after `scrape_all`'s dedup step no two retained rows share a
`job_url`; for every URL the retained row is the first occurrence in the
country-major insertion order (the `find?` characterization); and every row
whose `job_url` occurs exactly once in the raw concatenation is retained. -/
theorem scrape_all_dedup_spec (countries roles : List String)
    (scrape : String → String → List Row) :
    (scrape_all countries roles scrape).Pairwise (fun a b => a.job_url ≠ b.job_url) ∧
    (∀ u : String,
      (scrape_all countries roles scrape).find? (fun r => r.job_url == u) =
        (rawRows countries roles scrape).find? (fun r => r.job_url == u)) ∧
    ∀ r ∈ rawRows countries roles scrape,
      (rawRows countries roles scrape).countP (fun x => x.job_url == r.job_url) = 1 →
        r ∈ scrape_all countries roles scrape := by
  refine ⟨dedupGo_pairwise _ [], fun u => dedupGo_find? _ [] u rfl, ?_⟩
  intro r hr hc
  have hfind := find?_eq_some_of_countP_one (fun x => x.job_url == r.job_url)
    (rawRows countries roles scrape) r hr (by simp) hc
  have h2 := dedupGo_find? (rawRows countries roles scrape) [] r.job_url rfl
  rw [hfind] at h2
  exact List.mem_of_find?_eq_some h2

/-- C3 witness: a two-row scrape with distinct URLs; the first stamped row is
retained by the aggregation. -/
theorem scrape_all_dedup_spec_witness :
    stamp "germany" "DevOps Engineer"
        { site := "indeed", title := "A", job_url := "https://x/1" } ∈
      scrape_all ["germany"] ["DevOps Engineer"]
        (fun _ _ => [{ site := "indeed", title := "A", job_url := "https://x/1" },
                     { site := "glassdoor", title := "B", job_url := "https://x/2" }]) :=
  (scrape_all_dedup_spec ["germany"] ["DevOps Engineer"]
      (fun _ _ => [{ site := "indeed", title := "A", job_url := "https://x/1" },
                   { site := "glassdoor", title := "B", job_url := "https://x/2" }])).2.2
    _ (by decide) (by decide)

/-- C4: with the visa-sponsorship (inclusion) filter and the exclusion filter
both disabled, `filter_by_exclusion ∘ filter_by_visa_sponsorship` returns the
input collection unchanged. -/
theorem filters_disabled_identity (cfg : Config) (jobs : List Row)
    (h1 : cfg.filters.visa_sponsorship_filter = false)
    (h2 : cfg.filters.exclusion_filter = false) :
    (filter_by_exclusion cfg (filter_by_visa_sponsorship cfg jobs).2).2.1 = jobs := by
  simp [filter_by_visa_sponsorship, filter_by_exclusion, h1, h2]

/-- C4 witness: the identity at a concrete configuration and collection. -/
theorem filters_disabled_identity_witness :
    (filter_by_exclusion cfgBothOff (filter_by_visa_sponsorship cfgBothOff [rowW]).2).2.1 =
      [rowW] :=
  filters_disabled_identity cfgBothOff [rowW] rfl rfl

/-- C6: when the raw collection is non-empty, the inclusion filter is
enabled, and no row's description matches an inclusion keyword, `run` saves
exactly one file, suffixed `_unfiltered`, holding every pre-filter row with
the note set; after `save_results`' description drop these are exactly the
pre-filter rows annotated with the note, and the output is not empty. -/
theorem run_fallback_spec (cfg : Config) (jobs : List Row)
    (h1 : jobs ≠ [])
    (h2 : cfg.filters.visa_sponsorship_filter = true)
    (h3 : ∀ r ∈ jobs,
      rowMatches cfg.visa_keywords cfg.filters.case_sensitive (fillDesc r) = false) :
    runSaves cfg jobs =
      [("_unfiltered", jobs.map (fun r => setNote noteNoVisa (fillDesc r)))] ∧
    (jobs.map (fun r => setNote noteNoVisa (fillDesc r))).map dropDescription =
      jobs.map (fun r => dropDescription (setNote noteNoVisa r)) ∧
    jobs.map (fun r => setNote noteNoVisa (fillDesc r)) ≠ [] := by
  have hne : jobs.isEmpty = false := by
    cases hx : jobs with
    | nil => exact absurd hx h1
    | cons a t => rfl
  have hfil : (jobs.map fillDesc).filter
      (rowMatches cfg.visa_keywords cfg.filters.case_sensitive) = [] := by
    rw [List.filter_eq_nil_iff]
    intro a ha
    obtain ⟨r, hr, rfl⟩ := List.mem_map.1 ha
    simp [h3 r hr]
  have hv : filter_by_visa_sponsorship cfg jobs = (jobs.map fillDesc, []) := by
    rw [filter_by_visa_sponsorship]
    rw [if_neg (by simp [h2]), if_neg (by simp [hne])]
    simp [hfil]
  refine ⟨?_, ?_, ?_⟩
  · rw [runSaves, if_neg (by simp [hne])]
    simp only [hv, filter_by_exclusion_nil, h2]
    simp [hne, List.map_map, h1]
  · rw [List.map_map]
    rfl
  · simp [h1]

/-- C6 witness: two rows, neither containing a default inclusion keyword,
fall back to the single `_unfiltered` save. -/
theorem run_fallback_spec_witness :
    runSaves ({} : Config) rowsNoKw =
      [("_unfiltered", rowsNoKw.map (fun r => setNote noteNoVisa (fillDesc r)))] :=
  (run_fallback_spec {} rowsNoKw (by decide) rfl (by decide)).1

/-- C7 counterexample: `[""]` is a non-empty inclusion keyword list, the
filters are enabled, and the description of `rowNoDesc` is missing — yet the
inclusion pass KEEPS the row (the empty keyword matches the empty filled
description) instead of excluding it, and the exclusion pass drops it
instead of retaining it. -/
theorem missing_description_counterexample :
    cfgEmptyKw.visa_keywords ≠ [] ∧
    cfgEmptyKw.filters.visa_sponsorship_filter = true ∧
    cfgEmptyKw.filters.exclusion_filter = true ∧
    rowNoDesc.description = none ∧
    (filter_by_visa_sponsorship cfgEmptyKw [rowNoDesc]).2 ≠ [] ∧
    (filter_by_exclusion cfgEmptyKw [rowNoDesc]).2.1 = [] := by
  decide

/-- C7 (amended): a row with a missing description is processed with the
description read as the empty string and both filters are total functions on
it; provided the keyword list is non-empty and every keyword is non-empty
(the compiled pattern of an empty list, like an empty-string keyword,
matches everything, including the empty description), the exclusion pass
retains the row — with its description filled to `""` — and the enabled
inclusion pass excludes it. -/
theorem missing_description_spec (cfg : Config) (r : Row)
    (hd : r.description = none) :
    (cfg.filters.exclusion_filter = true → cfg.exclusion_keywords ≠ [] →
      (∀ kw ∈ cfg.exclusion_keywords, kw ≠ "") →
      (filter_by_exclusion cfg [r]).2.1 = [fillDesc r]) ∧
    (cfg.filters.visa_sponsorship_filter = true → cfg.visa_keywords ≠ [] →
      (∀ kw ∈ cfg.visa_keywords, kw ≠ "") →
      (filter_by_visa_sponsorship cfg [r]).2 = []) := by
  have hfill : (fillDesc r).description.getD "" = "" := by
    simp [fillDesc, hd]
  constructor
  · intro he hk hnz
    have hk' : cfg.exclusion_keywords.isEmpty = false := by
      cases hx : cfg.exclusion_keywords with
      | nil => exact absurd hx hk
      | cons a t => rfl
    rw [filter_by_exclusion, if_neg (by simp [he]), if_neg (by simp), if_neg (by simp [hk'])]
    simp only [List.map_cons, List.map_nil, List.filter_cons]
    rw [rowMatches, hfill, matchesAny_empty_text _ _ hk hnz]
    rfl
  · intro hv hvne hnz
    rw [filter_by_visa_sponsorship, if_neg (by simp [hv]), if_neg (by simp)]
    simp only [List.map_cons, List.map_nil, List.filter_cons]
    rw [rowMatches, hfill, matchesAny_empty_text _ _ hvne hnz]
    rfl

/-- C7 witness: under the default configuration (all keywords non-empty) the
missing-description row is retained by the exclusion pass and excluded by
the inclusion pass. -/
theorem missing_description_spec_witness :
    (filter_by_exclusion ({} : Config) [rowNoDesc]).2.1 = [fillDesc rowNoDesc] ∧
    (filter_by_visa_sponsorship ({} : Config) [rowNoDesc]).2 = [] :=
  ⟨(missing_description_spec {} rowNoDesc rfl).1 rfl (by decide) (by decide),
   (missing_description_spec {} rowNoDesc rfl).2 rfl (by decide) (by decide)⟩

/-- C8: in `run` the inclusion filter runs first — the primary (suffix-free)
save, when present, is exactly the exclusion pass applied to the inclusion
pass's output — and the exclusion pass's reported excluded count equals the
inclusion-filtered set's size minus the post-exclusion size (it is measured
against the inclusion-filtered set, not the raw set). -/
theorem exclusion_count_spec (cfg : Config) (jobs : List Row) (h : jobs ≠ []) :
    (∀ rows : List Row, ("", rows) ∈ runSaves cfg jobs →
      rows = (filter_by_exclusion cfg (filter_by_visa_sponsorship cfg jobs).2).2.1) ∧
    (∀ n : Nat,
      (filter_by_exclusion cfg (filter_by_visa_sponsorship cfg jobs).2).2.2 = some n →
      n = (filter_by_visa_sponsorship cfg jobs).2.length -
          (filter_by_exclusion cfg (filter_by_visa_sponsorship cfg jobs).2).2.1.length) := by
  have hne : jobs.isEmpty = false := by
    cases hx : jobs with
    | nil => exact absurd hx h
    | cons a t => rfl
  refine ⟨?_, filter_by_exclusion_count cfg _⟩
  intro rows hmem
  rw [runSaves, if_neg (by simp [hne])] at hmem
  simp only at hmem
  split_ifs at hmem <;> simp_all

/-- C8 witness: a concrete run in which the exclusion pass removes one of
two inclusion-filtered rows and reports excluded count 1. -/
theorem exclusion_count_spec_witness :
    (filter_by_exclusion ({} : Config)
        (filter_by_visa_sponsorship ({} : Config) rowsEU).2).2.2 = some 1 ∧
    1 = (filter_by_visa_sponsorship ({} : Config) rowsEU).2.length -
        (filter_by_exclusion ({} : Config)
          (filter_by_visa_sponsorship ({} : Config) rowsEU).2).2.1.length :=
  ⟨by decide,
   (exclusion_count_spec ({} : Config) rowsEU (by decide)).2 1 (by decide)⟩

/-- C5 counterexample: at the empty keyword list the claim's "a text matches
iff some keyword occurs as a substring" is false of the code — the program
compiles `'|'.join([]) = ''` and `re.compile('')` matches every text, yet no
keyword is a substring of "abc". -/
theorem visa_matcher_counterexample :
    ¬ (matchesAny [] false "abc" = true ↔
        ∃ kw ∈ ([] : List String), procText false kw <:+: procText false "abc") := by
  intro h
  obtain ⟨kw, hkw, _⟩ := h.1 (by decide)
  simp at hkw

/-- C5 (amended): the matcher compiled from `["visa sponsorship"]`
(case-insensitive) matches "We offer visa sponsorship for this role" and
does not match "no sponsorship available"; for every NON-EMPTY keyword list
a text matches iff some keyword occurs as a substring of the text (substring
semantics, case-folded unless `case_sensitive`); for the empty keyword list
the compiled pattern is the empty pattern, which matches every text. -/
theorem visa_matcher_spec :
    matchesAny ["visa sponsorship"] false "We offer visa sponsorship for this role" = true ∧
    matchesAny ["visa sponsorship"] false "no sponsorship available" = false ∧
    (∀ (caseSensitive : Bool) (text : String),
      matchesAny [] caseSensitive text = true) ∧
    ∀ (keywords : List String) (caseSensitive : Bool) (text : String), keywords ≠ [] →
      (matchesAny keywords caseSensitive text = true ↔
        ∃ kw ∈ keywords, procText caseSensitive kw <:+: procText caseSensitive text) :=
  ⟨by decide, by decide, matchesAny_nil,
   fun keywords caseSensitive text hne => matchesAny_iff keywords caseSensitive text hne⟩

/-- C5 witness: the non-empty-list iff instantiated at `["visa"]`. -/
theorem visa_matcher_spec_witness :
    matchesAny ["visa"] false "needs a visa now" = true ↔
      ∃ kw ∈ ["visa"], procText false kw <:+: procText false "needs a visa now" :=
  visa_matcher_spec.2.2.2 ["visa"] false "needs a visa now" (by decide)

/-- C9: for a non-empty result set and a configured output format that is
none of `csv`, `json`, `excel` (after the source's lower-casing),
`save_results` writes its primary file as CSV at the unmodified output path
— the fallback-with-warning path — rather than failing (the dispatch is a
total function with CSV as its final else-branch). -/
theorem save_results_unknown_format (cfg : Config) (jobs : List Row) (path : List Char)
    (h1 : jobs ≠ [])
    (h2 : strLower cfg.output_format ≠ "csv")
    (h3 : strLower cfg.output_format ≠ "json")
    (h4 : strLower cfg.output_format ≠ "excel") :
    ∃ rest, save_results cfg jobs path = ⟨path, FileFmt.csv, jobs⟩ :: rest := by
  have hne : jobs.isEmpty = false := by
    cases hx : jobs with
    | nil => exact absurd hx h1
    | cons a t => rfl
  have hpf : primaryPathFmt cfg.output_format path = (path, FileFmt.csv) := by
    rw [primaryPathFmt]
    simp [h2, h3, h4]
  rw [save_results, if_neg (by simp [hne])]
  simp only [hpf]
  by_cases hs : 1 < (uniqueStrings (jobs.map (fun r => r.site))).length
  · exact ⟨_, by rw [if_pos hs]⟩
  · exact ⟨[], by rw [if_neg hs]⟩

/-- C9 witness: format `"parquet"` on a one-row set falls back to a CSV
primary file at the given path. -/
theorem save_results_unknown_format_witness :
    ∃ rest, save_results { output_format := "parquet" } [rowW] "jobs.csv".toList =
      ⟨"jobs.csv".toList, FileFmt.csv, [rowW]⟩ :: rest :=
  save_results_unknown_format { output_format := "parquet" } [rowW] "jobs.csv".toList
    (by decide) (by decide) (by decide) (by decide)

/-- C10: when the rows span more than one site, `save_results` writes the
primary file followed by one file per distinct site, each per-site file
serialized as CSV regardless of the configured format, at the path obtained
by replacing `'.csv'` in the primary path with `'_<site>.csv'`; when the
primary path contains no `'.csv'` (as after the `json`/`excel` dispatch
rewrote it), every per-site path equals the primary path, so each per-site
CSV write lands on — and overwrites — the primary output file. -/
theorem per_site_split_spec (cfg : Config) (jobs : List Row) (path : List Char)
    (h : 1 < (uniqueStrings (jobs.map (fun r => r.site))).length) :
    save_results cfg jobs path =
      ⟨(primaryPathFmt cfg.output_format path).1,
        (primaryPathFmt cfg.output_format path).2, jobs⟩ ::
        (uniqueStrings (jobs.map (fun r => r.site))).map (fun s =>
          ⟨replaceCsv (siteSuffix s) (primaryPathFmt cfg.output_format path).1,
            FileFmt.csv, jobs.filter (fun r => r.site == s)⟩) ∧
    (∀ f ∈ (save_results cfg jobs path).tail, f.fmt = FileFmt.csv) ∧
    (occursIn csvPat (primaryPathFmt cfg.output_format path).1 = false →
      ∀ f ∈ (save_results cfg jobs path).tail,
        f.path = (primaryPathFmt cfg.output_format path).1) := by
  have hne : jobs.isEmpty = false := by
    cases hx : jobs with
    | nil =>
      rw [hx] at h
      simp [uniqueStrings, uniqueGo] at h
    | cons a t => rfl
  have heq : save_results cfg jobs path =
      ⟨(primaryPathFmt cfg.output_format path).1,
        (primaryPathFmt cfg.output_format path).2, jobs⟩ ::
        (uniqueStrings (jobs.map (fun r => r.site))).map (fun s =>
          ⟨replaceCsv (siteSuffix s) (primaryPathFmt cfg.output_format path).1,
            FileFmt.csv, jobs.filter (fun r => r.site == s)⟩) := by
    rw [save_results, if_neg (by simp [hne])]
    simp only [if_pos h]
  refine ⟨heq, ?_, ?_⟩
  · intro f hf
    rw [heq] at hf
    simp only [List.tail_cons] at hf
    obtain ⟨s, _, rfl⟩ := List.mem_map.1 hf
    rfl
  · intro hocc f hf
    rw [heq] at hf
    simp only [List.tail_cons] at hf
    obtain ⟨s, _, rfl⟩ := List.mem_map.1 hf
    exact replaceCsv_of_not_occurs _ _ hocc

/-- C10 witness: format `json`, two sites — the primary path is
`jobs.json`, contains no `'.csv'`, and both per-site CSV files are written
to the primary path itself. -/
theorem per_site_split_spec_witness :
    (SaveFile.mk "jobs.json".toList FileFmt.csv
        (rowsNoKw.filter (fun r => r.site == "indeed"))).path =
      (primaryPathFmt "json" "jobs.csv".toList).1 :=
  (per_site_split_spec { output_format := "json" } rowsNoKw "jobs.csv".toList
    (by decide)).2.2 (by decide) _ (by decide)

end JobScraper
